import Mathlib

/-!
Shallow embedding of `prql-compiler/src/ast/item.rs`: the PRQL AST item
type, its `Display` (rendering) implementation, and the structural
conversions (`Range::from_ints`, `Range::into_int`,
`Pipeline::into_transforms`, `Pipeline::as_transforms`,
`FuncCall::without_args`), together with theorems settling the spec's
claims about them.

Conventions of the embedding:
* Rust `Box<T>` is just `T` (ownership is irrelevant to the pure value).
* Rust `Option<T>` is `Option T`; `Result<T, E>` is `Except E T`; a
  `Result` whose error type is an opaque `anyhow::Error` is collapsed to
  `Option T` (only success/failure is observable in this core).
* Rust `i64` is `Int`: the code never performs arithmetic on the values,
  it only stores and moves them, so no wrap-around semantics arise.
* Writing to the `std::fmt` formatter is modelled as string concatenation
  in write order; the rendered text of an item is the total function
  `displayItem`.
-/

namespace Prql

/-- Inclusive-inclusive range; a missing bound means unbounded on that
side.  Mirrors `struct Range<T = Box<Node>> { start: Option<T>, end: Option<T> }`
(`end` is a Lean keyword, hence `end_`). -/
structure Range (T : Type) where
  start : Option T
  end_ : Option T
deriving DecidableEq, Repr

/-- Modelled from the spec: `Literal` lives outside this core's source
(only referenced through `super::*`); the spec describes it as
"int/float/string/bool/etc.".  The float payload is kept as its textual
form since no claim inspects it. -/
inductive Literal where
  | null
  | integer (i : Int)
  | float (repr : String)
  | boolean (b : Bool)
  | string (s : String)
deriving DecidableEq, Repr

/-- Binary operators, mirroring `enum BinOp` in the source. -/
inductive BinOp where
  | Mul | Div | Mod | Add | Sub | Eq | Ne | Gt | Lt | Gte | Lte
  | And | Or | Coalesce
deriving DecidableEq, Repr

/-- The canonical textual symbol of each binary operator
(the `strum(to_string = ...)` attributes in the source). -/
def binOpStr : BinOp → String
  | .Mul => "*"
  | .Div => "/"
  | .Mod => "%"
  | .Add => "+"
  | .Sub => "-"
  | .Eq => "=="
  | .Ne => "!="
  | .Gt => ">"
  | .Lt => "<"
  | .Gte => ">="
  | .Lte => "<="
  | .And => "and"
  | .Or => "or"
  | .Coalesce => "??"

/-- Unary operators, mirroring `enum UnOp` in the source. -/
inductive UnOp where
  | Neg
  | Not
deriving DecidableEq, Repr

/-- Modelled from the spec: `Transform` is "one of a closed set of query
operations (defined externally, only referenced here)".  Rendering only
uses its variant name (`transform.as_ref()`), so it is modelled as that
name. -/
structure Transform where
  name : String
deriving DecidableEq, Repr

/-- Modelled from the spec: a function parameter of a `FuncDef`;
rendering only reads its `name` field. -/
structure FuncParam where
  name : String
deriving DecidableEq, Repr

/-- Modelled from the spec: the window kind of a `Windowed` expression
("window-kind + Range"); never rendered, so kept abstract as two tags. -/
inductive WindowKind where
  | rows
  | range
deriving DecidableEq, Repr

/-- Mirrors `struct Interval { n: i64, unit: String }`. -/
structure Interval where
  n : Int
  unit : String
deriving DecidableEq, Repr

mutual

/-- Modelled from the spec: `Node` is "an opaque container that
exclusively owns one Item value plus identity/position metadata not
specified here"; the unspecified metadata is omitted since no operation
of this core reads it. -/
inductive Node where
  | mk (item : Item)

/-- The tagged union of everything a piece of source can be; mirrors
`enum Item` in the source.  `Ty` (a type expression, external) is kept as
its rendered text, and the `dialect` tag of `Query` likewise. -/
inductive Item where
  | empty
  | ident (s : String)
  | literal (l : Literal)
  | assign (ne : NamedExpr)
  | namedArg (ne : NamedExpr)
  | query (q : Query)
  | pipeline (p : Pipeline)
  | transform (t : Transform)
  | list (nodes : List Node)
  | range (r : Range Node)
  | binary (left : Node) (op : BinOp) (right : Node)
  | unary (op : UnOp) (expr : Node)
  | funcDef (fd : FuncDef)
  | funcCall (fc : FuncCall)
  | funcCurry (fc : FuncCurry)
  | type (t : String)
  | table (t : Table)
  | sstring (parts : List InterpolateItem)
  | fstring (parts : List InterpolateItem)
  | interval (i : Interval)
  | windowed (w : Windowed)

/-- Mirrors `struct NamedExpr { name: Ident, expr: Box<Node> }`. -/
inductive NamedExpr where
  | mk (name : String) (expr : Node)

/-- Mirrors `struct Query` (defined outside this file; modelled from the
spec as a "dialect tag + ordered sequence of Nodes"). -/
inductive Query where
  | mk (dialect : String) (nodes : List Node)

/-- Mirrors `struct Pipeline { nodes: Vec<Node> }`. -/
inductive Pipeline where
  | mk (nodes : List Node)

/-- Mirrors `struct FuncDef` (defined outside this file; modelled from
the spec as "name, ordered positional params, ordered named params,
owned body").  Rendering reads only the parameter names and the body. -/
inductive FuncDef where
  | mk (name : String) (positional_params : List FuncParam)
      (named_params : List FuncParam) (body : Node)

/-- Mirrors `struct FuncCall { name: Box<Node>, args: Vec<Node>,
named_args: HashMap<Ident, Box<Node>> }`.  The hash map is embedded as
the list of its entries; NOTE that the Rust `HashMap`'s iteration order
is an unspecified permutation of these entries (see
`possibleFuncCallRendering`). -/
inductive FuncCall where
  | mk (name : Node) (args : List Node) (named_args : List (String × Node))

/-- Mirrors `struct FuncCurry { def_id: usize, args: Vec<Node>,
named_args: Vec<Option<Node>> }`. -/
inductive FuncCurry where
  | mk (def_id : Nat) (args : List Node) (named_args : List (Option Node))

/-- Mirrors `struct Table` (defined outside this file; modelled from the
spec as "name, owned pipeline"). -/
inductive Table where
  | mk (name : String) (pipeline : Node)

/-- Mirrors `enum InterpolateItem { String(String), Expr(Box<Node>) }`. -/
inductive InterpolateItem where
  | str (s : String)
  | expr (e : Node)

/-- Modelled from the spec: a sort specification of a `Windowed`
expression ("ordered sort specs"); never rendered, kept as its column. -/
inductive ColumnSort where
  | mk (column : Node)

/-- Mirrors `struct Windowed { expr: Box<Node>, group: Vec<Node>,
sort: Vec<ColumnSort<Node>>, window: (WindowKind, Range) }`. -/
inductive Windowed where
  | mk (expr : Node) (group : List Node) (sort : List ColumnSort)
      (window : WindowKind × Range Node)

end

/-- The `Item` carried by a `Node` (field access `node.item`). -/
def Node.item : Node → Item
  | .mk i => i

/-- Mirrors `impl From<Item> for Node` (external to this file; modelled
from the spec's lifecycle: nodes wrap one Item plus metadata defaults). -/
def Node.fromItem (i : Item) : Node := Node.mk i

def NamedExpr.name : NamedExpr → String
  | .mk n _ => n

def NamedExpr.expr : NamedExpr → Node
  | .mk _ e => e

def Query.dialect : Query → String
  | .mk d _ => d

def Query.nodes : Query → List Node
  | .mk _ ns => ns

def Pipeline.nodes : Pipeline → List Node
  | .mk ns => ns

def FuncCall.name : FuncCall → Node
  | .mk n _ _ => n

def FuncCall.args : FuncCall → List Node
  | .mk _ a _ => a

def FuncCall.named_args : FuncCall → List (String × Node)
  | .mk _ _ na => na

/-- Mirrors `FuncCall::without_args`: a call with the given callee, no
positional arguments and an empty named-argument map. -/
def FuncCall.without_args (name : Node) : FuncCall :=
  FuncCall.mk name [] []

namespace Range

/-- Mirrors `Range::unbounded`: both bounds absent. -/
def unbounded : Range Node :=
  { start := none, end_ := none }

/-- Mirrors `Range::from_ints`: wraps each present integer as a
`Literal::Integer` leaf node; absent stays absent. -/
def from_ints (start : Option Int) (end_ : Option Int) : Range Node :=
  { start := start.map (fun x => Node.fromItem (Item.literal (Literal.integer x)))
    end_ := end_.map (fun x => Node.fromItem (Item.literal (Literal.integer x))) }

end Range

/-- Mirrors the `enum_as_inner`-derived `Item::into_literal`: the payload
if the item is a `Literal`, otherwise the item itself as the error. -/
def Item.into_literal : Item → Except Item Literal
  | .literal l => .ok l
  | i => .error i

/-- Modelled from the spec: the `enum_as_inner`-derived
`Literal::into_integer` (on the externally defined `Literal`): the
integer payload if the literal is an integer, otherwise the literal as
the error; "callers must not attempt to coerce or truncate other literal
kinds". -/
def Literal.into_integer : Literal → Except Literal Int
  | .integer i => .ok i
  | l => .error l

/-- Mirrors the `enum_as_inner`-derived `Item::as_transform`: the
`Transform` payload when the item is a `Transform`, else `none`. -/
def Item.as_transform : Item → Option Transform
  | .transform t => some t
  | _ => none

/-- Mirrors the `enum_as_inner`-derived `Item::into_transform`: the
`Transform` payload when the item is a `Transform`, else the item itself
as the error. -/
def Item.into_transform : Item → Except Item Transform
  | .transform t => .ok t
  | i => .error i

namespace Range

/-- Mirrors the inner `cast_bound` of `Range::into_int`:
`bound.item.into_literal()?.into_integer()?`, with the `anyhow` error
collapsed to `none`. -/
def cast_bound (bound : Node) : Option Int :=
  match bound.item.into_literal with
  | .error _ => none
  | .ok l =>
    match l.into_integer with
    | .error _ => none
    | .ok i => some i

/-- `self.start.map(cast_bound).transpose()` of `Range::into_int`:
an absent bound stays absent; a present bound must cast. -/
def cast_opt_bound : Option Node → Option (Option Int)
  | none => some none
  | some b => (cast_bound b).map some

/-- Mirrors `Range::into_int`: maps each present bound through
literal-extraction; the `Result`'s TypeMismatch-style `anyhow` error is
collapsed to `none` (only success/failure is observable here).  Pure. -/
def into_int (r : Range Node) : Option (Range Int) :=
  match cast_opt_bound r.start, cast_opt_bound r.end_ with
  | some s, some e => some { start := s, end_ := e }
  | _, _ => none

end Range

/-- The recursion of `Pipeline::into_transforms`:
`nodes.into_iter().map(|f| f.item.into_transform()).try_collect()`,
short-circuiting at the first error. -/
def intoTransformsList : List Node → Except Item (List Transform)
  | [] => .ok []
  | n :: rest =>
    match n.item.into_transform with
    | .error i => .error i
    | .ok t =>
      match intoTransformsList rest with
      | .error i => .error i
      | .ok ts => .ok (t :: ts)

/-- Mirrors `Pipeline::into_transforms`. -/
def Pipeline.into_transforms (p : Pipeline) : Except Item (List Transform) :=
  intoTransformsList p.nodes

/-- The recursion of `Pipeline::as_transforms`:
`nodes.iter().map(|f| f.item.as_transform()).collect::<Option<Vec<_>>>()`. -/
def asTransformsList : List Node → Option (List Transform)
  | [] => some []
  | n :: rest =>
    match n.item.as_transform with
    | none => none
    | some t =>
      match asTransformsList rest with
      | none => none
      | some ts => some (t :: ts)

/-- Mirrors `Pipeline::as_transforms` (the borrowed `&Transform`s become
values in the pure embedding; the pipeline is untouched — the function is
pure). -/
def Pipeline.as_transforms (p : Pipeline) : Option (List Transform) :=
  asTransformsList p.nodes

/-- The parameter-name loops of the `FuncDef` arm:
`write!(f, " {}", arg.name)` per parameter. -/
def paramNames : List FuncParam → String
  | [] => ""
  | p :: rest => " " ++ p.name ++ paramNames rest

/-- Modelled from the spec: the `Display` of the external `Literal`
("the literal's own canonical textual form (delegated)"). -/
def displayLiteral : Literal → String
  | .null => "null"
  | .integer i => toString i
  | .float r => r
  | .boolean b => if b then "true" else "false"
  | .string s => "\"" ++ s ++ "\""

mutual

/-- Mirrors `impl Display for Item`, arm by arm: writes to the formatter
become string concatenation in write order.  The `Windowed` arm is
`write!(f, "{:?}", w.expr)` — a debug dump whose exact text comes from
the externally-derived `Debug` (the `Node` metadata is outside this
core), so that arm delegates to the spec-modelled `debugNodeModel`. -/
def displayItem : Item → String
  | .empty => "()"
  | .ident s => s
  | .literal l => displayLiteral l
  | .assign (.mk name e) => name ++ " = " ++ displayNode e
  | .namedArg (.mk name e) => name ++ ":" ++ displayNode e
  | .query (.mk dialect ns) =>
    "prql dialect: " ++ dialect ++ "\n\n" ++ displayQueryNodes ns
  | .pipeline (.mk ns) =>
    "(" ++
      (match ns with
       | [] => ""
       | x :: rest =>
         if rest.isEmpty then displayNode x ++ displayPipeJoined rest
         else "\n  " ++ displayNode x ++ "\n" ++ displayIndentedLines rest) ++
      ")"
  | .transform t => t.name ++ " <unimplemented>"
  | .funcDef (.mk name pos named body) =>
    "func " ++ name ++ paramNames pos ++ paramNames named ++ " = " ++
      displayNode body ++ "\n\n"
  | .table (.mk name pipe) =>
    "table " ++ name ++ " = " ++ displayNode pipe ++ "\n\n"
  | .list ns =>
    (match ns with
     | [] => "[]"
     | [n] => "[" ++ displayNode n ++ "]"
     | a :: b :: rest => "[\n" ++ displayCommaLines (a :: b :: rest) ++ "]")
  | .range ⟨os, oe⟩ =>
    (match os with | some s => displayNode s | none => "") ++ ".." ++
      (match oe with | some e => displayNode e | none => "")
  | .binary left op right =>
    displayNode left ++ " " ++ binOpStr op ++ " " ++ displayNode right
  | .unary op e =>
    (match op with
     | .Neg => "!" ++ displayNode e
     | .Not => "not " ++ displayNode e)
  | .funcCall (.mk name args named) =>
    displayNode name ++ displayNamedArgs named ++ displayArgs args
  | .funcCurry _ => "(func ? -> ?)"
  | .sstring parts => "s" ++ "\"" ++ displayInterpParts parts ++ "\""
  | .fstring parts => "f" ++ "\"" ++ displayInterpParts parts ++ "\""
  | .interval i => toString i.n ++ i.unit
  | .type t => "<" ++ t ++ ">"
  | .windowed (.mk e _ _ _) => debugNodeModel e

/-- The rendered text of a `Node`: `write!(f, "{}", node.item)`. -/
def displayNode : Node → String
  | .mk i => displayItem i

/-- Modelled from the spec: the `Windowed` arm is "a debug-style dump of
the inner expression only"; the real `Debug` format depends on `Node`
metadata outside this core, so it is modelled as a fixed wrapper around
the recursively rendered item. -/
def debugNodeModel : Node → String
  | .mk i => "Node \x7b item: " ++ displayItem i ++ " \x7d"

/-- The `Query` arm's loop over `query.nodes`: a `Pipeline` node is
flattened one stage per line, every other node renders inline. -/
def displayQueryNodes : List Node → String
  | [] => ""
  | n :: rest =>
    (match n with
     | .mk (.pipeline (.mk ns)) => displayFlatLines ns
     | .mk i => displayItem i) ++ displayQueryNodes rest

/-- `writeln!(f, "{}", node.item)` per node: each stage followed by a
newline (the flattened pipeline inside a `Query`). -/
def displayFlatLines : List Node → String
  | [] => ""
  | n :: rest => displayNode n ++ "\n" ++ displayFlatLines rest

/-- The `for node in &pipeline.nodes[1..] { write!(f, " | {}", ...) }`
loop of the single-stage `Pipeline` arm (the inline pipe-joined style;
the loop body never runs there since the tail is empty). -/
def displayPipeJoined : List Node → String
  | [] => ""
  | n :: rest => " | " ++ displayNode n ++ displayPipeJoined rest

/-- The `writeln!(f, "  {}", node.item)` loop of the multi-stage
`Pipeline` arm: each later stage indented two spaces, newline after. -/
def displayIndentedLines : List Node → String
  | [] => ""
  | n :: rest => "  " ++ displayNode n ++ "\n" ++ displayIndentedLines rest

/-- The `writeln!(f, "  {},", li.item)` loop of the multi-element `List`
arm: each element indented two spaces, comma-terminated, on its line. -/
def displayCommaLines : List Node → String
  | [] => ""
  | n :: rest => "  " ++ displayNode n ++ ",\n" ++ displayCommaLines rest

/-- The named-argument loop of the `FuncCall` arm:
`write!(f, " {name}: {}", arg.item)` per entry, in the iteration order
given by the entry list. -/
def displayNamedArgs : List (String × Node) → String
  | [] => ""
  | (nm, arg) :: rest => " " ++ nm ++ ": " ++ displayNode arg ++ displayNamedArgs rest

/-- The positional-argument loop of the `FuncCall` arm:
`write!(f, " {}", arg.item)` per argument. -/
def displayArgs : List Node → String
  | [] => ""
  | a :: rest => " " ++ displayNode a ++ displayArgs rest

/-- The interpolation-part loop of `display_interpolation`: literal text
verbatim, expression parts wrapped in braces. -/
def displayInterpParts : List InterpolateItem → String
  | [] => ""
  | .str s :: rest => s ++ displayInterpParts rest
  | .expr e :: rest => "\x7b" ++ displayNode e ++ "\x7d" ++ displayInterpParts rest

end

/-! ## Claim-side helper definitions

These definitions phrase properties the claims talk about; they are
written from the claims' words and compared against the source-derived
definitions above by the theorems below. -/

/-- Claim-side: the integer value of a node that is an integer-literal
expression, `none` for every other node. -/
def extractInt (n : Node) : Option Int :=
  match n.item with
  | .literal (.integer i) => some i
  | _ => none

/-- Claim-side: every present bound of the range is an integer-literal
expression. -/
def boundsIntLit (r : Range Node) : Bool :=
  r.start.all (fun n => (extractInt n).isSome) &&
    r.end_.all (fun n => (extractInt n).isSome)

/-- One possible rendering of a `FuncCall` under a given iteration order
of its named-argument map.  The Rust `HashMap`'s iteration order depends
on the hasher's per-map random state, not on the map's contents, so any
permutation of the entries is a possible formatter iteration
(see `possibleFuncCallRendering`). -/
def funcCallRendering (fc : FuncCall) (order : List (String × Node)) : String :=
  displayNode fc.name ++ displayNamedArgs order ++ displayArgs fc.args

/-- `s` is a text the `FuncCall` arm of `Display` can produce for `fc`:
the rendering under some iteration order of the named-argument map. -/
def possibleFuncCallRendering (fc : FuncCall) (s : String) : Prop :=
  ∃ order, List.Perm order fc.named_args ∧ s = funcCallRendering fc order

/-! ## Supporting lemmas -/

theorem cast_bound_eq_extractInt (n : Node) :
    Range.cast_bound n = extractInt n := by
  rcases n with ⟨i⟩
  cases i <;> try rfl
  next l => cases l <;> rfl

theorem into_transform_of_as {i : Item} {t : Transform}
    (h : i.as_transform = some t) : i.into_transform = .ok t := by
  cases i <;> simp_all [Item.as_transform, Item.into_transform]

theorem into_transform_of_not_as {i : Item}
    (h : i.as_transform = none) : i.into_transform = .error i := by
  cases i <;> simp_all [Item.as_transform, Item.into_transform]

theorem intoTransformsList_all (ns : List Node)
    (h : ∀ n ∈ ns, (n.item.as_transform).isSome) :
    intoTransformsList ns = Except.ok (ns.filterMap (fun n => n.item.as_transform)) := by
  induction ns with
  | nil => rfl
  | cons n rest ih =>
    obtain ⟨t, ht⟩ := Option.isSome_iff_exists.mp (h n (List.mem_cons_self n rest))
    simp [intoTransformsList, into_transform_of_as ht, ht,
      ih (fun m hm => h m (List.mem_cons_of_mem n hm))]

theorem intoTransformsList_fail (pre : List Node) (n : Node) (post : List Node)
    (hpre : ∀ m ∈ pre, (m.item.as_transform).isSome)
    (hn : n.item.as_transform = none) :
    intoTransformsList (pre ++ n :: post) = Except.error n.item := by
  induction pre with
  | nil => simp [intoTransformsList, into_transform_of_not_as hn]
  | cons m rest ih =>
    obtain ⟨t, ht⟩ := Option.isSome_iff_exists.mp (hpre m (List.mem_cons_self m rest))
    simp [intoTransformsList, into_transform_of_as ht,
      ih (fun x hx => hpre x (List.mem_cons_of_mem m hx))]

theorem asTransformsList_all (ns : List Node)
    (h : ∀ n ∈ ns, (n.item.as_transform).isSome) :
    asTransformsList ns = some (ns.filterMap (fun n => n.item.as_transform)) := by
  induction ns with
  | nil => rfl
  | cons n rest ih =>
    obtain ⟨t, ht⟩ := Option.isSome_iff_exists.mp (h n (List.mem_cons_self n rest))
    simp [asTransformsList, ht, ih (fun m hm => h m (List.mem_cons_of_mem n hm))]

theorem asTransformsList_none (ns : List Node)
    (h : ∃ n ∈ ns, n.item.as_transform = none) :
    asTransformsList ns = none := by
  induction ns with
  | nil => simp at h
  | cons n rest ih =>
    obtain ⟨m, hm, hnone⟩ := h
    rcases List.mem_cons.mp hm with heq | hmem
    · subst heq; simp [asTransformsList, hnone]
    · cases hh : n.item.as_transform with
      | none => simp [asTransformsList, hh]
      | some t => simp [asTransformsList, hh, ih ⟨m, hmem, hnone⟩]

theorem string_join_cons (s : String) (l : List String) :
    String.join (s :: l) = s ++ String.join l := by
  apply String.ext
  simp [String.data_append]

theorem displayFlatLines_eq_join (ns : List Node) :
    displayFlatLines ns = String.join (ns.map (fun m => displayNode m ++ "\n")) := by
  induction ns with
  | nil => rfl
  | cons n rest ih => simp [displayFlatLines, string_join_cons, ih]

theorem displayQueryNodes_eq_join (ns : List Node) :
    displayQueryNodes ns =
      String.join (ns.map (fun n =>
        match n.item with
        | Item.pipeline p => String.join (p.nodes.map (fun m => displayNode m ++ "\n"))
        | _ => displayItem n.item)) := by
  induction ns with
  | nil => rfl
  | cons n rest ih =>
    rcases n with ⟨i⟩
    cases i
    case pipeline p =>
      rcases p with ⟨pns⟩
      simp [displayQueryNodes, string_join_cons, ih, Node.item,
        displayFlatLines_eq_join, Pipeline.nodes]
    all_goals simp [displayQueryNodes, string_join_cons, ih, Node.item]

theorem cast_opt_bound_eq (o : Option Node) :
    Range.cast_opt_bound o =
      if o.all (fun n => (extractInt n).isSome) then some (o.bind extractInt)
      else none := by
  cases o with
  | none => rfl
  | some b =>
    cases hb : extractInt b <;>
      simp [Range.cast_opt_bound, cast_bound_eq_extractInt, hb, Option.all]

/-! ## Claim theorems -/

/-- C1: for every finite acyclic tree, rendering its `Item` terminates
and returns some text for every variant of the tagged union —
`displayItem` is a total (structurally recursive, hence terminating)
function defined by a rendering rule for each variant, and the
placeholder variants pinned by the source (`FuncCurry`, `Transform`)
indeed produce their placeholder output. -/
theorem display_total_every_variant :
    (∀ i : Item, ∃ s : String, displayItem i = s) ∧
    (∀ c : FuncCurry, displayItem (Item.funcCurry c) = "(func ? -> ?)") ∧
    (∀ t : Transform,
      displayItem (Item.transform t) = t.name ++ " <unimplemented>") :=
  ⟨fun i => ⟨displayItem i, rfl⟩, fun _ => rfl, fun _ => rfl⟩

/-- C2: rendering a `Pipeline` produces `"()"` for zero stages, `"(A)"`
for one stage rendering as `A`, and for two or more stages each stage on
its own line indented two spaces, the first preceded by a newline, a
newline after each stage, then the closing parenthesis (shown for two
and for three stages). -/
theorem pipeline_render_cases :
    displayItem (Item.pipeline (Pipeline.mk [])) = "()" ∧
    (∀ a : Node,
      displayItem (Item.pipeline (Pipeline.mk [a])) =
        "(" ++ displayNode a ++ ")") ∧
    (∀ a b : Node,
      displayItem (Item.pipeline (Pipeline.mk [a, b])) =
        "(\n  " ++ displayNode a ++ "\n  " ++ displayNode b ++ "\n)") ∧
    (∀ a b c : Node,
      displayItem (Item.pipeline (Pipeline.mk [a, b, c])) =
        "(\n  " ++ displayNode a ++ "\n  " ++ displayNode b ++ "\n  " ++
          displayNode c ++ "\n)") := by
  refine ⟨rfl, fun a => ?_, fun a b => ?_, fun a b c => ?_⟩ <;>
    · simp only [displayItem, displayIndentedLines, displayPipeJoined,
        List.isEmpty_cons, List.isEmpty_nil, if_true]
      apply String.ext
      simp [String.data_append]

/-- C3: building a range from two present integers and extracting the
integers back is the identity:
`Range::from_ints(Some(a), Some(b)).into_int()` succeeds with
`Range { start: Some(a), end: Some(b) }` for all integers `a`, `b`. -/
theorem from_ints_into_int_roundtrip (a b : Int) :
    Range.into_int (Range.from_ints (some a) (some b)) =
      some { start := some a, end_ := some b } := rfl

/-- C4: `Range::into_int` fails exactly when some present bound is not
an integer-literal expression (the TypeMismatch condition, collapsed to
`none` here); when every present bound is an integer literal it succeeds
with a range whose bounds are present exactly where the input's were and
carry those literals' integer values.  The function is pure by
construction and extracts only `Literal::Integer` — no other literal
kind is coerced (first conjunct, right-to-left). -/
theorem into_int_char (r : Range Node) :
    (Range.into_int r = none ↔ boundsIntLit r = false) ∧
    (boundsIntLit r = true →
      Range.into_int r =
        some { start := r.start.bind extractInt, end_ := r.end_.bind extractInt } ∧
      (r.start.bind extractInt).isSome = r.start.isSome ∧
      (r.end_.bind extractInt).isSome = r.end_.isSome) := by
  rcases r with ⟨os, oe⟩
  simp only [Range.into_int, cast_opt_bound_eq, boundsIntLit]
  by_cases h1 : os.all (fun n => (extractInt n).isSome) = true <;>
    by_cases h2 : oe.all (fun n => (extractInt n).isSome) = true <;>
      (simp_all [Option.all, Option.isSome, Option.bind]
       try (cases os <;> cases oe <;>
         simp_all [Option.all, Option.isSome, Option.bind]))

/-- C4 witness: a range whose single present bound is the integer
literal `7` satisfies the integer-literal condition, and `into_int`
succeeds on it as the theorem states. -/
theorem into_int_char_witness :
    boundsIntLit
      { start := some (Node.fromItem (Item.literal (Literal.integer 7))),
        end_ := none } = true ∧
    (Range.into_int
      { start := some (Node.fromItem (Item.literal (Literal.integer 7))),
        end_ := none } = some { start := some 7, end_ := none } ∧
      (some 7 : Option Int).isSome =
        (some (Node.fromItem (Item.literal (Literal.integer 7)))).isSome ∧
      (none : Option Int).isSome = (none : Option Node).isSome) :=
  ⟨rfl, (into_int_char _).2 rfl⟩

/-- C5: `into_transforms` checks the nodes in declared order and
short-circuits: when every node's item is a `Transform` it returns the
full list of `Transform` values in order; otherwise it fails at the
first node whose item is not a `Transform`, returning that offending
item (and, being a total Lean function, it cannot panic). -/
theorem into_transforms_char (p : Pipeline) :
    ((∀ n ∈ p.nodes, (n.item.as_transform).isSome) →
      p.into_transforms =
        Except.ok (p.nodes.filterMap (fun n => n.item.as_transform))) ∧
    (∀ pre n post, p.nodes = pre ++ n :: post →
      (∀ m ∈ pre, (m.item.as_transform).isSome) →
      n.item.as_transform = none →
      p.into_transforms = Except.error n.item) := by
  constructor
  · exact fun h => intoTransformsList_all p.nodes h
  · intro pre n post hsplit hpre hn
    show intoTransformsList p.nodes = _
    rw [hsplit]
    exact intoTransformsList_fail pre n post hpre hn

/-- C5 witness: `into_transforms` applied to an all-`Transform` pipeline
returns the full ordered list, and to a pipeline whose second node is
not a `Transform` returns that offending item. -/
theorem into_transforms_char_witness :
    (Pipeline.mk [Node.mk (Item.transform ⟨"From"⟩),
      Node.mk (Item.transform ⟨"Select"⟩)]).into_transforms =
        Except.ok [⟨"From"⟩, ⟨"Select"⟩] ∧
    (Pipeline.mk [Node.mk (Item.transform ⟨"From"⟩),
      Node.mk Item.empty]).into_transforms = Except.error Item.empty :=
  ⟨(into_transforms_char _).1 (by decide),
   (into_transforms_char _).2 [Node.mk (Item.transform ⟨"From"⟩)]
     (Node.mk Item.empty) [] rfl (by decide) rfl⟩

/-- C6: `as_transforms` is all-or-nothing and (being pure) non-mutating:
it returns the ordered list of all `Transform` values exactly when every
node's item is a `Transform` (so the empty pipeline yields the empty
list), and returns `none` — no partial result — when any node's item is
not a `Transform`. -/
theorem as_transforms_char (p : Pipeline) :
    ((∀ n ∈ p.nodes, (n.item.as_transform).isSome) →
      p.as_transforms =
        some (p.nodes.filterMap (fun n => n.item.as_transform))) ∧
    ((∃ n ∈ p.nodes, n.item.as_transform = none) → p.as_transforms = none) ∧
    (p.nodes = [] → p.as_transforms = some []) := by
  refine ⟨fun h => asTransformsList_all p.nodes h,
    fun h => asTransformsList_none p.nodes h, fun h => ?_⟩
  show asTransformsList p.nodes = _
  rw [h]
  rfl

/-- C6 witness: `as_transforms` on an all-`Transform` pipeline, on a
pipeline containing a non-`Transform` node, and on the empty pipeline. -/
theorem as_transforms_char_witness :
    (Pipeline.mk [Node.mk (Item.transform ⟨"Filter"⟩)]).as_transforms =
      some [⟨"Filter"⟩] ∧
    (Pipeline.mk [Node.mk (Item.transform ⟨"Filter"⟩),
      Node.mk Item.empty]).as_transforms = none ∧
    (Pipeline.mk []).as_transforms = some [] :=
  ⟨(as_transforms_char _).1 (by decide),
   (as_transforms_char _).2.1
     ⟨Node.mk Item.empty,
      List.mem_cons_of_mem _ (List.mem_cons_self _ _), rfl⟩,
   (as_transforms_char _).2.2 rfl⟩

/-- C7: rendering a `Query` produces the header line
`prql dialect: <dialect>` followed by a blank line, then each top-level
node in order; a top-level `Pipeline` node is flattened with each stage
on its own line (no parentheses, pipes or indentation), every other
top-level node renders inline. -/
theorem query_render (q : Query) :
    displayItem (Item.query q) =
      "prql dialect: " ++ q.dialect ++ "\n\n" ++
        String.join (q.nodes.map (fun n =>
          match n.item with
          | Item.pipeline p =>
            String.join (p.nodes.map (fun m => displayNode m ++ "\n"))
          | _ => displayItem n.item)) := by
  rcases q with ⟨d, ns⟩
  simp [displayItem, Query.dialect, Query.nodes, displayQueryNodes_eq_join]

/-- C8: the claim's determinism fails on the code: the `FuncCall` arm
iterates a `HashMap`, whose iteration order is an unspecified function
of the hasher's per-map random state, so a call with two named arguments
admits two different rendered texts for the same item value. -/
theorem funcCall_render_not_deterministic :
    possibleFuncCallRendering
      (FuncCall.mk (Node.mk (Item.ident "f")) []
        [("a", Node.mk (Item.literal (Literal.integer 1))),
         ("b", Node.mk (Item.literal (Literal.integer 2)))])
      "f a: 1 b: 2" ∧
    possibleFuncCallRendering
      (FuncCall.mk (Node.mk (Item.ident "f")) []
        [("a", Node.mk (Item.literal (Literal.integer 1))),
         ("b", Node.mk (Item.literal (Literal.integer 2)))])
      "f b: 2 a: 1" ∧
    "f a: 1 b: 2" ≠ "f b: 2 a: 1" :=
  ⟨⟨[("a", Node.mk (Item.literal (Literal.integer 1))),
     ("b", Node.mk (Item.literal (Literal.integer 2)))],
    List.Perm.refl _, by decide⟩,
   ⟨[("b", Node.mk (Item.literal (Literal.integer 2))),
     ("a", Node.mk (Item.literal (Literal.integer 1)))],
    List.Perm.swap _ _ _, by decide⟩,
   by decide⟩

/-- C9: `FuncCall::without_args` builds a call with no positional and no
named arguments, and rendering it as a `FuncCall` item produces exactly
the text of the callee node's item alone. -/
theorem without_args_render (n : Node) :
    (FuncCall.without_args n).args = [] ∧
    (FuncCall.without_args n).named_args = [] ∧
    displayItem (Item.funcCall (FuncCall.without_args n)) =
      displayItem n.item := by
  refine ⟨rfl, rfl, ?_⟩
  rcases n with ⟨i⟩
  simp [displayItem, FuncCall.without_args, displayNamedArgs, displayArgs,
    displayNode, Node.item]

/-- C10: the two construction paths for the unbounded range agree:
`Range::from_ints(None, None)` equals `Range::unbounded()`, both bounds
absent. -/
theorem from_ints_none_none_unbounded :
    Range.from_ints none none = Range.unbounded := rfl

end Prql
